import Mathlib

/-
Verification of the ExoticDexFHE contract (src/contracts/Exotic_DEX.sol):
a confidential price-oracle aggregator with a batch lifecycle, encrypted
accumulation, cooldown throttling and an asynchronous decryption
request/callback protocol.  The contract's storage and every public
function are embedded below as pure Lean definitions; the external FHE
arithmetic engine and the decryption oracle (imported libraries, not part
of this repository) are modelled from the specification's external
interface description.
-/

namespace DEX

/-- Handle of an encrypted 32-bit integer (source type `euint32`).
Modelled from the spec: the ciphertext arithmetic engine is external and
opaque; a handle is the term built from `encode` (`FHE.asEuint32`),
homomorphic `add` and `divide`, plus the uninitialized (zero) handle.
Deterministic handle derivation makes handle equality equality of these
terms. -/
inductive Euint32 where
  | uninit : Euint32
  | enc : Nat → Euint32
  | add : Euint32 → Euint32 → Euint32
  | div : Euint32 → Euint32 → Euint32
deriving DecidableEq

namespace FHE

/-- Trivial encryption of a plaintext value (source `FHE.asEuint32`). -/
def asEuint32 (n : Nat) : Euint32 := .enc n

/-- Homomorphic addition (source `FHE.add`). -/
def add (a b : Euint32) : Euint32 := .add a b

/-- Homomorphic division (source `FHE.div`). -/
def div (a b : Euint32) : Euint32 := .div a b

/-- Decryption semantics of a handle.  Modelled from the spec: `add` is
the aggregation sum and `divide` is integer division (integer-average
semantics per the spec's design notes); Nat division by zero is 0. -/
def eval : Euint32 → Nat
  | .uninit => 0
  | .enc n => n
  | .add a b => eval a + eval b
  | .div a b => eval a / eval b

/-- Source `euint32.toUint32()`: extracts the numeric value stored back
into the plaintext `priceSum` accumulator. -/
def toUint32 (x : Euint32) : Nat := eval x

/-- Source `FHE.toBytes32`: the serialized handle (injective). -/
def toBytes32 (x : Euint32) : Euint32 := x

/-- Source `FHE.isInitialized`: true for every handle built from a
validly encoded ciphertext, false for the uninitialized handle. -/
def isInitialized : Euint32 → Bool
  | .uninit => false
  | .enc _ => true
  | .add a b => isInitialized a && isInitialized b
  | .div a b => isInitialized a && isInitialized b

end FHE

/-- Result of `keccak256(abi.encode(cts, address(this)))` in
`_hashCiphertexts`.  Modelled from the spec: the hash is a binding,
collision-free fingerprint of exactly the ciphertext list and the
contract's own address, so it is modelled as the injective pair. -/
structure HashVal where
  cts : List Euint32
  addr : Nat
deriving DecidableEq

/-- Source `_hashCiphertexts(bytes32[] memory cts)` (pure). -/
def hashCiphertexts (cts : List Euint32) (addr : Nat) : HashVal :=
  { cts := cts, addr := addr }

/-- Zero value of `bytes32`, the default `stateHash` of an absent
mapping entry; never equal to a computed ciphertext hash. -/
def zeroHash : HashVal := { cts := [], addr := 0 }

/-- Source `error` declarations, plus the string revert of the
`require(newCooldown > 0, "Cooldown must be positive")` statement. -/
inductive Err where
  | NotOwner
  | NotProvider
  | PausedError
  | CooldownActive
  | BatchClosedOrNonExistent
  | InvalidBatchState
  | ReplayAttempt
  | StateMismatch
  | InvalidProof
  | NotInitialized
  | CooldownMustBePositive
deriving DecidableEq

/-- Source `struct Batch`; the field `open` is a Lean keyword and is
named `isOpen` here. -/
structure Batch where
  id : Nat
  isOpen : Bool
  priceSum : Nat
  count : Nat
deriving DecidableEq

/-- Source `struct DecryptionContext`. -/
structure DecryptionContext where
  batchId : Nat
  stateHash : HashVal
  processed : Bool
deriving DecidableEq

/-- Zero-initialized mapping entry for `decryptionContexts`. -/
def defaultContext : DecryptionContext :=
  { batchId := 0, stateHash := zeroHash, processed := false }

/-- Verdict of `FHE.checkSignatures(requestId, cleartexts, proof)`:
an opaque external pure verifier, a parameter of the model.  `bytes`
arguments are modelled by their decoded numeric content. -/
abbrev SigOk := Nat → Nat → Nat → Bool

/-- Contract storage (one deployed instance).  Addresses, timestamps and
`uint256` values are Nat.  `self` is `address(this)`.  `oracleNextId` is
modelled from the spec: the external oracle assigns request ids; the real
gateway hands out fresh ids from a counter. -/
structure State where
  self : Nat
  owner : Nat
  isProvider : Nat → Bool
  lastSubmissionTime : Nat → Nat
  lastDecryptionRequestTime : Nat → Nat
  cooldownSeconds : Nat
  paused : Bool
  currentBatch : Batch
  decryptionContexts : Nat → DecryptionContext
  oracleNextId : Nat

/-- Source constructor: owner is the deployer, the cooldown defaults to
60 seconds, the batch record starts as `{id: 0, open: false, priceSum: 0,
count: 0}`, and every mapping is zero-initialized. -/
def initialState (deployer self : Nat) : State :=
  { self := self
    owner := deployer
    isProvider := fun _ => false
    lastSubmissionTime := fun _ => 0
    lastDecryptionRequestTime := fun _ => 0
    cooldownSeconds := 60
    paused := false
    currentBatch := { id := 0, isOpen := false, priceSum := 0, count := 0 }
    decryptionContexts := fun _ => defaultContext
    oracleNextId := 0 }

/-- Source `transferOwnership` (modifier `onlyOwner`). -/
def transferOwnership (s : State) (caller newOwner : Nat) : Except Err State :=
  if caller ≠ s.owner then .error .NotOwner
  else .ok { s with owner := newOwner }

/-- Source `addProvider` (modifier `onlyOwner`). -/
def addProvider (s : State) (caller provider : Nat) : Except Err State :=
  if caller ≠ s.owner then .error .NotOwner
  else .ok { s with isProvider := fun a => if a = provider then true else s.isProvider a }

/-- Source `removeProvider` (modifier `onlyOwner`; `delete` resets to the
zero value `false`). -/
def removeProvider (s : State) (caller provider : Nat) : Except Err State :=
  if caller ≠ s.owner then .error .NotOwner
  else .ok { s with isProvider := fun a => if a = provider then false else s.isProvider a }

/-- Source `setCooldownSeconds` (modifier `onlyOwner`, then the
`require(newCooldown > 0)`). -/
def setCooldownSeconds (s : State) (caller newCooldown : Nat) : Except Err State :=
  if caller ≠ s.owner then .error .NotOwner
  else if newCooldown = 0 then .error .CooldownMustBePositive
  else .ok { s with cooldownSeconds := newCooldown }

/-- Source `pause` (modifier `onlyOwner`). -/
def pause (s : State) (caller : Nat) : Except Err State :=
  if caller ≠ s.owner then .error .NotOwner
  else .ok { s with paused := true }

/-- Source `unpause` (modifier `onlyOwner`). -/
def unpause (s : State) (caller : Nat) : Except Err State :=
  if caller ≠ s.owner then .error .NotOwner
  else .ok { s with paused := false }

/-- Source `openBatch` (modifiers `onlyOwner`, `whenNotPaused`). -/
def openBatch (s : State) (caller : Nat) : Except Err State :=
  if caller ≠ s.owner then .error .NotOwner
  else if s.paused = true then .error .PausedError
  else if s.currentBatch.isOpen = true then .error .InvalidBatchState
  else .ok { s with currentBatch :=
    { id := s.currentBatch.id + 1, isOpen := true, priceSum := 0, count := 0 } }

/-- Source `closeBatch` (modifiers `onlyOwner`, `whenNotPaused`). -/
def closeBatch (s : State) (caller : Nat) : Except Err State :=
  if caller ≠ s.owner then .error .NotOwner
  else if s.paused = true then .error .PausedError
  else if s.currentBatch.isOpen = false then .error .BatchClosedOrNonExistent
  else .ok { s with currentBatch := { s.currentBatch with isOpen := false } }

/-- Source `submitEncryptedPrice` with `t` the value of
`block.timestamp`.  Modifiers execute in source order: `onlyProvider`,
`whenNotPaused`, `checkSubmissionCooldown`, then the function body checks
the batch state and `_initIfNeeded(encryptedPrice)` before mutating. -/
def submitEncryptedPrice (s : State) (caller : Nat) (encryptedPrice : Euint32) (t : Nat) :
    Except Err State :=
  if s.isProvider caller = false then .error .NotProvider
  else if s.paused = true then .error .PausedError
  else if t < s.lastSubmissionTime caller + s.cooldownSeconds then .error .CooldownActive
  else if s.currentBatch.isOpen = false then .error .BatchClosedOrNonExistent
  else if FHE.isInitialized encryptedPrice = false then .error .NotInitialized
  else .ok { s with
    lastSubmissionTime := fun a => if a = caller then t else s.lastSubmissionTime a
    currentBatch := { s.currentBatch with
      priceSum := FHE.toUint32 (FHE.add (FHE.asEuint32 s.currentBatch.priceSum) encryptedPrice)
      count := s.currentBatch.count + 1 } }

/-- Ciphertext of the batch average derived identically in
`requestPriceDecryption` and `myCallback`:
`FHE.div(FHE.asEuint32(priceSum), FHE.asEuint32(count))`. -/
def avgCiphertext (b : Batch) : Euint32 :=
  FHE.div (FHE.asEuint32 b.priceSum) (FHE.asEuint32 b.count)

/-- Source `requestPriceDecryption` with `t` the value of
`block.timestamp` (modifiers `whenNotPaused`, `checkDecryptionCooldown`).
The oracle-assigned `requestId` is the modelled oracle counter
`s.oracleNextId`. -/
def requestPriceDecryption (s : State) (caller : Nat) (t : Nat) : Except Err State :=
  if s.paused = true then .error .PausedError
  else if t < s.lastDecryptionRequestTime caller + s.cooldownSeconds then .error .CooldownActive
  else if s.currentBatch.isOpen = true ∨ s.currentBatch.count = 0 then .error .InvalidBatchState
  else if FHE.isInitialized (FHE.asEuint32 s.currentBatch.priceSum) = false then
    .error .NotInitialized
  else if FHE.isInitialized (FHE.asEuint32 s.currentBatch.count) = false then
    .error .NotInitialized
  else .ok { s with
    lastDecryptionRequestTime := fun a => if a = caller then t else s.lastDecryptionRequestTime a
    decryptionContexts := fun r => if r = s.oracleNextId then
      { batchId := s.currentBatch.id
        stateHash := hashCiphertexts [FHE.toBytes32 (avgCiphertext s.currentBatch)] s.self
        processed := false }
      else s.decryptionContexts r
    oracleNextId := s.oracleNextId + 1 }

/-- Source `myCallback(requestId, cleartexts, proof)`.  The function is
`public` with no modifier, so `caller` (`msg.sender`) is never read.  On
success it returns the updated state together with the `finalPrice`
carried by the `DecryptionCompleted` event
(`abi.decode(cleartexts, (uint256))`, i.e. the numeric content of
`cleartexts`). -/
def myCallback (sigOk : SigOk) (s : State) (caller requestId cleartexts proof : Nat) :
    Except Err (State × Nat) :=
  if (s.decryptionContexts requestId).processed = true then .error .ReplayAttempt
  else if s.currentBatch.id ≠ (s.decryptionContexts requestId).batchId ∨
      s.currentBatch.isOpen = true ∨ s.currentBatch.count = 0 then .error .InvalidBatchState
  else if FHE.isInitialized (FHE.asEuint32 s.currentBatch.priceSum) = false then
    .error .NotInitialized
  else if FHE.isInitialized (FHE.asEuint32 s.currentBatch.count) = false then
    .error .NotInitialized
  else if hashCiphertexts [FHE.toBytes32 (avgCiphertext s.currentBatch)] s.self ≠
      (s.decryptionContexts requestId).stateHash then .error .StateMismatch
  else if sigOk requestId cleartexts proof = false then .error .InvalidProof
  else .ok ({ s with decryptionContexts := fun r => if r = requestId then
      { s.decryptionContexts requestId with processed := true }
      else s.decryptionContexts r }, cleartexts)

/-- One externally invokable transaction of the contract. -/
inductive Op where
  | transferOwnership (caller newOwner : Nat)
  | addProvider (caller provider : Nat)
  | removeProvider (caller provider : Nat)
  | setCooldownSeconds (caller newCooldown : Nat)
  | pause (caller : Nat)
  | unpause (caller : Nat)
  | openBatch (caller : Nat)
  | closeBatch (caller : Nat)
  | submitEncryptedPrice (caller : Nat) (encryptedPrice : Euint32) (t : Nat)
  | requestPriceDecryption (caller : Nat) (t : Nat)
  | myCallback (caller requestId cleartexts proof : Nat)

/-- Dispatch of a transaction against the contract state. -/
def applyOp (sigOk : SigOk) (s : State) : Op → Except Err State
  | .transferOwnership c n => transferOwnership s c n
  | .addProvider c p => addProvider s c p
  | .removeProvider c p => removeProvider s c p
  | .setCooldownSeconds c n => setCooldownSeconds s c n
  | .pause c => pause s c
  | .unpause c => unpause s c
  | .openBatch c => openBatch s c
  | .closeBatch c => closeBatch s c
  | .submitEncryptedPrice c p t => submitEncryptedPrice s c p t
  | .requestPriceDecryption c t => requestPriceDecryption s c t
  | .myCallback c r ct pf => (myCallback sigOk s c r ct pf).map Prod.fst

/-- Transaction semantics: a reverted call leaves storage exactly as it
was (the EVM rolls the whole transaction back). -/
def stepTx (sigOk : SigOk) (s : State) (op : Op) : State :=
  match applyOp sigOk s op with
  | .ok s' => s'
  | .error _ => s

/-- Executions: `ReachableFrom sigOk s s'` means a sequence of
successful transactions leads from `s` to `s'` (reverted transactions do
not change state, so they need no step). -/
inductive ReachableFrom (sigOk : SigOk) : State → State → Prop where
  | refl (s : State) : ReachableFrom sigOk s s
  | step (s t t' : State) (op : Op) (h : ReachableFrom sigOk s t)
      (hstep : applyOp sigOk t op = .ok t') : ReachableFrom sigOk s t'

/-- A state the deployed contract can actually be in. -/
def Reachable (sigOk : SigOk) (s : State) : Prop :=
  ∃ d self, ReachableFrom sigOk (initialState d self) s

/-- Reachability invariant: a batch that was never opened has no
submissions and is closed, and every request id not yet handed out by
the oracle still maps to the zero-initialized context. -/
def Inv (s : State) : Prop :=
  (s.currentBatch.id = 0 → s.currentBatch.isOpen = false ∧ s.currentBatch.count = 0) ∧
  (∀ rid, s.oracleNextId ≤ rid → s.decryptionContexts rid = defaultContext)

/-- Sequence of provider submissions `(caller, value, timestamp)` of
validly encoded prices into the current batch. -/
def submitAll (s : State) (subs : List (Nat × Nat × Nat)) : Except Err State :=
  subs.foldlM (fun st x => submitEncryptedPrice st x.1 (.enc x.2.1) x.2.2) s

/-- A verifier that accepts every signature, for concrete executions. -/
def oracleSigAlways : SigOk := fun _ _ _ => true

/-- Extracts the post-state of a successful call (concrete executions
below only apply it to successful calls). -/
def okOr (x : Except Err State) : State :=
  match x with
  | .ok s => s
  | .error _ => initialState 0 0

/-- Extracts the post-state of a successful callback. -/
def okOrP (x : Except Err (State × Nat)) : State :=
  match x with
  | .ok p => p.1
  | .error _ => initialState 0 0

/-- Deployment by address 0 at contract address 0. -/
def exA0 : State := initialState 0 0

/-- Owner registers provider 1. -/
def exA1 : State := okOr (addProvider exA0 0 1)

/-- Owner registers provider 2. -/
def exA2 : State := okOr (addProvider exA1 0 2)

/-- Owner opens batch 1. -/
def exA3 : State := okOr (openBatch exA2 0)

/-- Provider 1 submits the encoding of 100 at time 100. -/
def exA4 : State := okOr (submitEncryptedPrice exA3 1 (.enc 100) 100)

/-- Owner closes batch 1 (priceSum 100, count 1). -/
def exA5 : State := okOr (closeBatch exA4 0)

/-- Address 2 requests decryption at time 100; the oracle assigns
request id 0 and the commitment to batch 1's average is stored. -/
def exA6 : State := okOr (requestPriceDecryption exA5 2 100)

/-- Owner reopens: batch 2, aggregate reset. -/
def exA7 : State := okOr (openBatch exA6 0)

/-- Provider 1 submits the encoding of 200 at time 200 into batch 2. -/
def exA8 : State := okOr (submitEncryptedPrice exA7 1 (.enc 200) 200)

/-- Owner closes batch 2 (priceSum 200, count 1); the request for
batch 1 is still outstanding but the aggregate has drifted. -/
def exA9 : State := okOr (closeBatch exA8 0)

/-- Successful callback for request 0 delivered at `exA6` (cleartext
100, any proof accepted): sets `processed`. -/
def exB7 : State := okOrP (myCallback oracleSigAlways exA6 9 0 100 0)

/-- Owner pauses the contract while request 0 is outstanding. -/
def exP6 : State := okOr (pause exA6 0)

/-- Callback for request 0 delivered while paused: it still succeeds. -/
def exP7 : State := okOrP (myCallback oracleSigAlways exP6 9 0 100 0)

/-- Owner transfers ownership to address 5 while paused. -/
def exT7 : State := okOr (transferOwnership exP6 0 5)

/-- Scenario B submissions: providers 1 and 2 submit encodings of 100
and 200 at time 100. -/
def subsB : List (Nat × Nat × Nat) := [(1, 100, 100), (2, 200, 100)]

/-- Both scenario B submissions land in open batch 1. -/
def exC4 : State := okOr (submitAll exA3 subsB)

/-- Owner closes batch 1 (priceSum 300, count 2). -/
def exC5 : State := okOr (closeBatch exC4 0)

/-- Address 3 requests decryption of batch 1's average at time 100. -/
def exC6 : State := okOr (requestPriceDecryption exC5 3 100)

/-- Honest callback with the true decryption 150 of the committed
average ciphertext. -/
def exC7 : State := okOrP (myCallback oracleSigAlways exC6 9 0 150 0)

/-- Owner opens a batch right after deployment (for the first-action
cooldown analysis). -/
def exD2 : State := okOr (openBatch exA1 0)

/-- Success inversion for `transferOwnership`. -/
theorem transferOwnership_ok {s s' : State} {c n : Nat}
    (h : transferOwnership s c n = .ok s') :
    c = s.owner ∧ s' = { s with owner := n } := by
  unfold transferOwnership at h
  split at h <;> simp_all

/-- Success inversion for `addProvider`. -/
theorem addProvider_ok {s s' : State} {c p : Nat}
    (h : addProvider s c p = .ok s') :
    c = s.owner ∧
    s' = { s with isProvider := fun a => if a = p then true else s.isProvider a } := by
  unfold addProvider at h
  split at h <;> simp_all

/-- Success inversion for `removeProvider`. -/
theorem removeProvider_ok {s s' : State} {c p : Nat}
    (h : removeProvider s c p = .ok s') :
    c = s.owner ∧
    s' = { s with isProvider := fun a => if a = p then false else s.isProvider a } := by
  unfold removeProvider at h
  split at h <;> simp_all

/-- Success inversion for `setCooldownSeconds`. -/
theorem setCooldownSeconds_ok {s s' : State} {c n : Nat}
    (h : setCooldownSeconds s c n = .ok s') :
    c = s.owner ∧ n ≠ 0 ∧ s' = { s with cooldownSeconds := n } := by
  unfold setCooldownSeconds at h
  split at h <;> [simp_all; skip]
  split at h <;> simp_all

/-- Success inversion for `pause`. -/
theorem pause_ok {s s' : State} {c : Nat} (h : pause s c = .ok s') :
    c = s.owner ∧ s' = { s with paused := true } := by
  unfold pause at h
  split at h <;> simp_all

/-- Success inversion for `unpause`. -/
theorem unpause_ok {s s' : State} {c : Nat} (h : unpause s c = .ok s') :
    c = s.owner ∧ s' = { s with paused := false } := by
  unfold unpause at h
  split at h <;> simp_all

/-- Success inversion for `openBatch`. -/
theorem openBatch_ok {s s' : State} {c : Nat} (h : openBatch s c = .ok s') :
    c = s.owner ∧ s.paused = false ∧ s.currentBatch.isOpen = false ∧
    s' = { s with currentBatch :=
      { id := s.currentBatch.id + 1, isOpen := true, priceSum := 0, count := 0 } } := by
  unfold openBatch at h
  split at h <;> [simp_all; skip]
  split at h <;> [simp_all; skip]
  split at h <;> simp_all

/-- Success inversion for `closeBatch`. -/
theorem closeBatch_ok {s s' : State} {c : Nat} (h : closeBatch s c = .ok s') :
    c = s.owner ∧ s.paused = false ∧ s.currentBatch.isOpen = true ∧
    s' = { s with currentBatch := { s.currentBatch with isOpen := false } } := by
  unfold closeBatch at h
  split at h <;> [simp_all; skip]
  split at h <;> [simp_all; skip]
  split at h <;> simp_all

/-- Success inversion for `submitEncryptedPrice`. -/
theorem submitEncryptedPrice_ok {s s' : State} {c : Nat} {p : Euint32} {t : Nat}
    (h : submitEncryptedPrice s c p t = .ok s') :
    s.isProvider c = true ∧ s.paused = false ∧
    s.lastSubmissionTime c + s.cooldownSeconds ≤ t ∧
    s.currentBatch.isOpen = true ∧ FHE.isInitialized p = true ∧
    s' = { s with
      lastSubmissionTime := fun a => if a = c then t else s.lastSubmissionTime a
      currentBatch := { s.currentBatch with
        priceSum := FHE.toUint32 (FHE.add (FHE.asEuint32 s.currentBatch.priceSum) p)
        count := s.currentBatch.count + 1 } } := by
  unfold submitEncryptedPrice at h
  split at h <;> [simp_all; skip]
  split at h <;> [simp_all; skip]
  split at h <;> [simp_all; skip]
  split at h <;> [simp_all; skip]
  split at h <;> simp_all

/-- Success inversion for `requestPriceDecryption`. -/
theorem requestPriceDecryption_ok {s s' : State} {c t : Nat}
    (h : requestPriceDecryption s c t = .ok s') :
    s.paused = false ∧
    s.lastDecryptionRequestTime c + s.cooldownSeconds ≤ t ∧
    s.currentBatch.isOpen = false ∧ s.currentBatch.count ≠ 0 ∧
    s' = { s with
      lastDecryptionRequestTime := fun a => if a = c then t else s.lastDecryptionRequestTime a
      decryptionContexts := fun r => if r = s.oracleNextId then
        { batchId := s.currentBatch.id
          stateHash := hashCiphertexts [FHE.toBytes32 (avgCiphertext s.currentBatch)] s.self
          processed := false }
        else s.decryptionContexts r
      oracleNextId := s.oracleNextId + 1 } := by
  unfold requestPriceDecryption at h
  split at h <;> [simp_all; skip]
  split at h <;> [simp_all; skip]
  split at h <;> [simp_all; skip]
  split at h <;> [simp_all; skip]
  split at h <;> simp_all

/-- Success inversion for `myCallback`. -/
theorem myCallback_ok {sigOk : SigOk} {s s' : State} {c rid ct pf fp : Nat}
    (h : myCallback sigOk s c rid ct pf = .ok (s', fp)) :
    (s.decryptionContexts rid).processed = false ∧
    s.currentBatch.id = (s.decryptionContexts rid).batchId ∧
    s.currentBatch.isOpen = false ∧ s.currentBatch.count ≠ 0 ∧
    hashCiphertexts [FHE.toBytes32 (avgCiphertext s.currentBatch)] s.self =
      (s.decryptionContexts rid).stateHash ∧
    sigOk rid ct pf = true ∧ fp = ct ∧
    s' = { s with decryptionContexts := fun r => if r = rid then
      { s.decryptionContexts rid with processed := true }
      else s.decryptionContexts r } := by
  unfold myCallback at h
  split at h <;> [simp_all; skip]
  split at h <;> [simp_all; skip]
  split at h <;> [simp_all; skip]
  split at h <;> [simp_all; skip]
  split at h <;> [simp_all; skip]
  split at h <;> simp_all

/-- A successful dispatched callback is a successful `myCallback`. -/
theorem applyOp_myCallback_ok {sigOk : SigOk} {s s' : State} {c r ct pf : Nat}
    (h : applyOp sigOk s (.myCallback c r ct pf) = .ok s') :
    ∃ fp, myCallback sigOk s c r ct pf = .ok (s', fp) := by
  simp only [applyOp] at h
  cases hm : myCallback sigOk s c r ct pf with
  | error e => rw [hm] at h; simp [Except.map] at h
  | ok p =>
    obtain ⟨s₁, fp⟩ := p
    rw [hm] at h
    simp [Except.map] at h
    refine ⟨fp, ?_⟩
    simp [h]

/-- Facts preserved by every successful transaction: the batch id and
the oracle counter never decrease, a closed batch whose id did not
change did not change at all, and an already-issued request context
keeps its batch id and commitment while `processed` can only be set. -/
theorem applyOp_step_facts {sigOk : SigOk} {s s' : State} {op : Op}
    (h : applyOp sigOk s op = .ok s') :
    s.currentBatch.id ≤ s'.currentBatch.id ∧
    s.oracleNextId ≤ s'.oracleNextId ∧
    (s.currentBatch.isOpen = false → s'.currentBatch.id = s.currentBatch.id →
      s'.currentBatch = s.currentBatch) ∧
    (∀ rid, rid < s.oracleNextId →
      (s'.decryptionContexts rid).batchId = (s.decryptionContexts rid).batchId ∧
      (s'.decryptionContexts rid).stateHash = (s.decryptionContexts rid).stateHash ∧
      ((s.decryptionContexts rid).processed = true →
        (s'.decryptionContexts rid).processed = true)) := by
  cases op with
  | transferOwnership c n =>
    obtain ⟨-, rfl⟩ := transferOwnership_ok h
    exact ⟨le_rfl, le_rfl, fun _ _ => rfl, fun rid _ => ⟨rfl, rfl, fun hp => hp⟩⟩
  | addProvider c p =>
    obtain ⟨-, rfl⟩ := addProvider_ok h
    exact ⟨le_rfl, le_rfl, fun _ _ => rfl, fun rid _ => ⟨rfl, rfl, fun hp => hp⟩⟩
  | removeProvider c p =>
    obtain ⟨-, rfl⟩ := removeProvider_ok h
    exact ⟨le_rfl, le_rfl, fun _ _ => rfl, fun rid _ => ⟨rfl, rfl, fun hp => hp⟩⟩
  | setCooldownSeconds c n =>
    obtain ⟨-, -, rfl⟩ := setCooldownSeconds_ok h
    exact ⟨le_rfl, le_rfl, fun _ _ => rfl, fun rid _ => ⟨rfl, rfl, fun hp => hp⟩⟩
  | pause c =>
    obtain ⟨-, rfl⟩ := pause_ok h
    exact ⟨le_rfl, le_rfl, fun _ _ => rfl, fun rid _ => ⟨rfl, rfl, fun hp => hp⟩⟩
  | unpause c =>
    obtain ⟨-, rfl⟩ := unpause_ok h
    exact ⟨le_rfl, le_rfl, fun _ _ => rfl, fun rid _ => ⟨rfl, rfl, fun hp => hp⟩⟩
  | openBatch c =>
    obtain ⟨-, -, -, rfl⟩ := openBatch_ok h
    exact ⟨Nat.le_succ _, le_rfl, fun _ hid => absurd hid (by simp),
      fun rid _ => ⟨rfl, rfl, fun hp => hp⟩⟩
  | closeBatch c =>
    obtain ⟨-, -, hop, rfl⟩ := closeBatch_ok h
    exact ⟨le_rfl, le_rfl, fun hcl _ => by simp_all,
      fun rid _ => ⟨rfl, rfl, fun hp => hp⟩⟩
  | submitEncryptedPrice c p t =>
    obtain ⟨-, -, -, hop, -, rfl⟩ := submitEncryptedPrice_ok h
    exact ⟨le_rfl, le_rfl, fun hcl _ => by simp_all,
      fun rid _ => ⟨rfl, rfl, fun hp => hp⟩⟩
  | requestPriceDecryption c t =>
    obtain ⟨-, -, -, -, rfl⟩ := requestPriceDecryption_ok h
    refine ⟨le_rfl, Nat.le_succ _, fun _ _ => rfl, fun rid hlt => ?_⟩
    have hne : rid ≠ s.oracleNextId := Nat.ne_of_lt hlt
    simp [hne]
  | myCallback c r ct pf =>
    obtain ⟨fp, hcb⟩ := applyOp_myCallback_ok h
    obtain ⟨-, -, -, -, -, -, -, rfl⟩ := myCallback_ok hcb
    refine ⟨le_rfl, le_rfl, fun _ _ => rfl, fun rid _ => ?_⟩
    by_cases hr : rid = r <;> simp [hr]

/-- The per-step facts, transported along whole executions. -/
theorem rtc_facts {sigOk : SigOk} {s s' : State} (h : ReachableFrom sigOk s s') :
    s.currentBatch.id ≤ s'.currentBatch.id ∧
    s.oracleNextId ≤ s'.oracleNextId ∧
    (∀ rid, rid < s.oracleNextId →
      (s'.decryptionContexts rid).batchId = (s.decryptionContexts rid).batchId ∧
      (s'.decryptionContexts rid).stateHash = (s.decryptionContexts rid).stateHash ∧
      ((s.decryptionContexts rid).processed = true →
        (s'.decryptionContexts rid).processed = true)) := by
  induction h with
  | refl => exact ⟨le_rfl, le_rfl, fun rid _ => ⟨rfl, rfl, fun hp => hp⟩⟩
  | step t t' op h hstep ih =>
    obtain ⟨hid, hnext, hctx⟩ := ih
    obtain ⟨hid', hnext', -, hctx'⟩ := applyOp_step_facts hstep
    refine ⟨le_trans hid hid', le_trans hnext hnext', fun rid hlt => ?_⟩
    obtain ⟨hb, hh, hp⟩ := hctx rid hlt
    obtain ⟨hb', hh', hp'⟩ := hctx' rid (lt_of_lt_of_le hlt hnext)
    exact ⟨hb'.trans hb, hh'.trans hh, fun hpr => hp' (hp hpr)⟩

/-- A batch that is closed can only be changed by `openBatch`, which
increments the id: along any execution in which the id is unchanged, the
whole batch record is unchanged. -/
theorem rtc_closed_fixed {sigOk : SigOk} {s s' : State} (h : ReachableFrom sigOk s s')
    (hclosed : s.currentBatch.isOpen = false)
    (hid : s'.currentBatch.id = s.currentBatch.id) :
    s'.currentBatch = s.currentBatch := by
  induction h with
  | refl => rfl
  | step t t' op h hstep ih =>
    have hmono : s.currentBatch.id ≤ t.currentBatch.id := (rtc_facts h).1
    obtain ⟨hid', -, hfix, -⟩ := applyOp_step_facts hstep
    have ht : t.currentBatch.id = s.currentBatch.id := by omega
    have hbt : t.currentBatch = s.currentBatch := ih ht
    have htcl : t.currentBatch.isOpen = false := by rw [hbt]; exact hclosed
    have := hfix htcl (by omega)
    rw [this, hbt]

/-- The invariant holds at deployment. -/
theorem inv_initial (d self : Nat) : Inv (initialState d self) :=
  ⟨fun _ => ⟨rfl, rfl⟩, fun _ _ => rfl⟩

/-- The invariant is preserved by every successful transaction. -/
theorem inv_step {sigOk : SigOk} {s s' : State} {op : Op}
    (hInv : Inv s) (h : applyOp sigOk s op = .ok s') : Inv s' := by
  obtain ⟨hNew, hDefault⟩ := hInv
  cases op with
  | transferOwnership c n => obtain ⟨-, rfl⟩ := transferOwnership_ok h; exact ⟨hNew, hDefault⟩
  | addProvider c p => obtain ⟨-, rfl⟩ := addProvider_ok h; exact ⟨hNew, hDefault⟩
  | removeProvider c p => obtain ⟨-, rfl⟩ := removeProvider_ok h; exact ⟨hNew, hDefault⟩
  | setCooldownSeconds c n =>
    obtain ⟨-, -, rfl⟩ := setCooldownSeconds_ok h; exact ⟨hNew, hDefault⟩
  | pause c => obtain ⟨-, rfl⟩ := pause_ok h; exact ⟨hNew, hDefault⟩
  | unpause c => obtain ⟨-, rfl⟩ := unpause_ok h; exact ⟨hNew, hDefault⟩
  | openBatch c =>
    obtain ⟨-, -, -, rfl⟩ := openBatch_ok h
    exact ⟨fun hid => absurd hid (by simp), hDefault⟩
  | closeBatch c =>
    obtain ⟨-, -, hop, rfl⟩ := closeBatch_ok h
    refine ⟨fun hid => ⟨rfl, ?_⟩, hDefault⟩
    exact (hNew hid).2
  | submitEncryptedPrice c p t =>
    obtain ⟨-, -, -, hop, -, rfl⟩ := submitEncryptedPrice_ok h
    refine ⟨fun hid => absurd (hNew hid).1 (by simp [hop]), hDefault⟩
  | requestPriceDecryption c t =>
    obtain ⟨-, -, -, -, rfl⟩ := requestPriceDecryption_ok h
    refine ⟨hNew, fun rid hge => ?_⟩
    have hge' : s.oracleNextId + 1 ≤ rid := hge
    have hne : rid ≠ s.oracleNextId := by omega
    simpa [hne] using hDefault rid (by omega)
  | myCallback c r ct pf =>
    obtain ⟨fp, hcb⟩ := applyOp_myCallback_ok h
    obtain ⟨-, hbid, -, hcnt, -, -, -, rfl⟩ := myCallback_ok hcb
    refine ⟨hNew, fun rid hge => ?_⟩
    have hge' : s.oracleNextId ≤ rid := hge
    have hne : rid ≠ r := by
      intro heq
      subst heq
      have hdef := hDefault rid hge'
      rw [hdef] at hbid
      exact hcnt (hNew hbid).2
    simpa [hne] using hDefault rid hge'

/-- The invariant is preserved along whole executions. -/
theorem inv_rtc {sigOk : SigOk} {s s' : State} (h : ReachableFrom sigOk s s')
    (hInv : Inv s) : Inv s' := by
  induction h with
  | refl => exact hInv
  | step t t' op h hstep ih => exact inv_step ih hstep

/-- Every reachable state satisfies the invariant. -/
theorem inv_reachable {sigOk : SigOk} {s : State} (h : Reachable sigOk s) : Inv s := by
  obtain ⟨d, self, hrtc⟩ := h
  exact inv_rtc hrtc (inv_initial d self)

/-- The example deployment reaches the state with request 0 outstanding
for batch 1. -/
theorem rtc_exA0_exA6 : ReachableFrom oracleSigAlways exA0 exA6 :=
  .step exA0 exA5 exA6 (.requestPriceDecryption 2 100)
    (.step exA0 exA4 exA5 (.closeBatch 0)
      (.step exA0 exA3 exA4 (.submitEncryptedPrice 1 (.enc 100) 100)
        (.step exA0 exA2 exA3 (.openBatch 0)
          (.step exA0 exA1 exA2 (.addProvider 0 2)
            (.step exA0 exA0 exA1 (.addProvider 0 1) (.refl exA0) rfl)
            rfl)
          rfl)
        rfl)
      rfl)
    rfl

/-- The state with request 0 outstanding is reachable from deployment. -/
theorem reach_exA6 : Reachable oracleSigAlways exA6 := ⟨0, 0, rtc_exA0_exA6⟩

/-- After the request for batch 1, a full reopen/submit/close cycle
drifts the aggregate to 200 under batch id 2. -/
theorem rtc_exA6_exA9 : ReachableFrom oracleSigAlways exA6 exA9 :=
  .step exA6 exA8 exA9 (.closeBatch 0)
    (.step exA6 exA7 exA8 (.submitEncryptedPrice 1 (.enc 200) 200)
      (.step exA6 exA6 exA7 (.openBatch 0) (.refl exA6) rfl)
      rfl)
    rfl

/-- Claim C1, counterexample: request 0 commits to batch 1 with
priceSum 100; a reopen/submit/close cycle changes the aggregate to 200
before the callback arrives; the callback then fails with
`InvalidBatchState` — not with `StateMismatch` as the claim states —
because the batch-id check precedes the commitment re-check. -/
theorem C1_counterexample :
    requestPriceDecryption exA5 2 100 = .ok exA6 ∧
    exA5.currentBatch.priceSum = 100 ∧
    exA9.currentBatch.priceSum = 200 ∧
    ReachableFrom oracleSigAlways exA6 exA9 ∧
    myCallback oracleSigAlways exA9 7 0 200 0 = .error .InvalidBatchState ∧
    Err.InvalidBatchState ≠ Err.StateMismatch :=
  ⟨rfl, rfl, rfl, rtc_exA6_exA9, rfl, by decide⟩

/-- Claim C1, amended: if the batch's aggregate (priceSum) or count has
changed between the time `requestPriceDecryption` stored the commitment
and the time the callback for that request id runs, then `myCallback`
fails and never finalizes against the drifted state; the failure is
`InvalidBatchState` (any aggregate or count change entails a batch-id
change, and the id check precedes the hash comparison), or
`ReplayAttempt` when the request had already been finalized before the
change. -/
theorem C1_drift_callback_fails (sigOk sigCb : SigOk) (s0 s1 s2 : State)
    (c t caller ct pf : Nat)
    (hreq : requestPriceDecryption s0 c t = .ok s1)
    (hrtc : ReachableFrom sigOk s1 s2)
    (hdrift : s2.currentBatch.priceSum ≠ s0.currentBatch.priceSum ∨
      s2.currentBatch.count ≠ s0.currentBatch.count) :
    myCallback sigCb s2 caller s0.oracleNextId ct pf = .error .ReplayAttempt ∨
    myCallback sigCb s2 caller s0.oracleNextId ct pf = .error .InvalidBatchState := by
  obtain ⟨-, -, hclosed, -, hs1⟩ := requestPriceDecryption_ok hreq
  have hb1 : s1.currentBatch = s0.currentBatch := by rw [hs1]
  have hn1 : s1.oracleNextId = s0.oracleNextId + 1 := by rw [hs1]
  have hc1 : (s1.decryptionContexts s0.oracleNextId).batchId = s0.currentBatch.id := by
    rw [hs1]; simp
  obtain ⟨hb2, -, -⟩ := (rtc_facts hrtc).2.2 s0.oracleNextId (by omega)
  cases hproc : (s2.decryptionContexts s0.oracleNextId).processed with
  | true => exact Or.inl (by simp [myCallback, hproc])
  | false =>
    right
    have hidne : s2.currentBatch.id ≠ s0.currentBatch.id := by
      intro hid
      have hcl1 : s1.currentBatch.isOpen = false := by rw [hb1]; exact hclosed
      have hfix := rtc_closed_fixed hrtc hcl1 (by rw [hb1]; exact hid)
      rw [hb1] at hfix
      cases hdrift with
      | inl hne => exact hne (congrArg Batch.priceSum hfix)
      | inr hne => exact hne (congrArg Batch.count hfix)
    have hne : s2.currentBatch.id ≠ (s2.decryptionContexts s0.oracleNextId).batchId := by
      rw [hb2, hc1]; exact hidne
    simp [myCallback, hproc, hne]

/-- Claim C1, witness: the amended theorem applied to the concrete
drifted execution. -/
theorem C1_drift_callback_fails_witness :
    myCallback oracleSigAlways exA9 7 0 200 0 = .error .ReplayAttempt ∨
    myCallback oracleSigAlways exA9 7 0 200 0 = .error .InvalidBatchState :=
  C1_drift_callback_fails oracleSigAlways oracleSigAlways exA5 exA6 exA9 2 100 7 200 0
    rfl rtc_exA6_exA9 (by decide)

/-- Claim C2: for a fixed request id, `myCallback` can succeed at most
once: once a successful call has set `processed`, every later call with
the same request id fails with `ReplayAttempt`, regardless of the
cleartexts and proof supplied and of the transactions executed in
between. -/
theorem C2_exactly_once (sigOk sigCb sigCb2 : SigOk) (s s1 s2 : State)
    (c c2 rid ct pf ct2 pf2 fp : Nat)
    (hreach : Reachable sigOk s)
    (hok : myCallback sigCb s c rid ct pf = .ok (s1, fp))
    (hrtc : ReachableFrom sigOk s1 s2) :
    myCallback sigCb2 s2 c2 rid ct2 pf2 = .error .ReplayAttempt := by
  have hInv := inv_reachable hreach
  obtain ⟨-, hbid, -, hcnt, -, -, -, hs1⟩ := myCallback_ok hok
  have hlt : rid < s.oracleNextId := by
    by_contra hge
    push_neg at hge
    have hdef := hInv.2 rid hge
    rw [hdef] at hbid
    simp only [defaultContext] at hbid
    exact hcnt (hInv.1 hbid).2
  have hp1 : (s1.decryptionContexts rid).processed = true := by rw [hs1]; simp
  have hn1 : s1.oracleNextId = s.oracleNextId := by rw [hs1]
  obtain ⟨-, -, hpm⟩ := (rtc_facts hrtc).2.2 rid (by omega)
  have hp2 := hpm hp1
  simp [myCallback, hp2]

/-- Claim C2, witness: after the successful callback for request 0, an
immediate replay with different payload fails with `ReplayAttempt`. -/
theorem C2_exactly_once_witness :
    myCallback oracleSigAlways exB7 11 0 999 999 = .error .ReplayAttempt :=
  C2_exactly_once oracleSigAlways oracleSigAlways oracleSigAlways exA6 exB7 exB7
    9 11 0 100 0 999 999 100 reach_exA6 rfl (.refl exB7)

/-- Effect of a successful sequence of submissions on the batch: the id
and open flag are unchanged, the aggregate grows by the sum of the
submitted values, and the count by their number. -/
theorem submitAll_ok {subs : List (Nat × Nat × Nat)} {s s' : State}
    (h : submitAll s subs = .ok s') :
    s'.currentBatch.id = s.currentBatch.id ∧
    s'.currentBatch.isOpen = s.currentBatch.isOpen ∧
    s'.currentBatch.priceSum = s.currentBatch.priceSum + (subs.map fun x => x.2.1).sum ∧
    s'.currentBatch.count = s.currentBatch.count + subs.length := by
  induction subs generalizing s with
  | nil =>
    simp only [submitAll, List.foldlM, pure, Except.pure, Except.ok.injEq] at h
    subst h
    exact ⟨rfl, rfl, by simp, rfl⟩
  | cons hd tl ih =>
    simp only [submitAll, List.foldlM] at h
    cases hstep : submitEncryptedPrice s hd.1 (.enc hd.2.1) hd.2.2 with
    | error e => rw [hstep] at h; simp [Bind.bind, Except.bind] at h
    | ok s1 =>
      rw [hstep] at h
      simp only [Bind.bind, Except.bind] at h
      obtain ⟨hid, ho, hps, hcnt⟩ := ih h
      obtain ⟨-, -, -, -, -, hs1⟩ := submitEncryptedPrice_ok hstep
      have h1id : s1.currentBatch.id = s.currentBatch.id := by rw [hs1]
      have h1o : s1.currentBatch.isOpen = s.currentBatch.isOpen := by rw [hs1]
      have h1ps : s1.currentBatch.priceSum = s.currentBatch.priceSum + hd.2.1 := by rw [hs1]; rfl
      have h1cnt : s1.currentBatch.count = s.currentBatch.count + 1 := by rw [hs1]
      refine ⟨by omega, by rw [ho, h1o], ?_, by simp [List.length_cons]; omega⟩
      rw [hps, h1ps]
      simp [List.sum_cons]
      omega

/-- Claim C3: for every sequence of `n ≥ 1` valid provider submissions
`s1..sn` into a single open batch, after closing the batch, requesting
decryption and receiving the honest oracle callback (the cleartext is
the true decryption of the committed average ciphertext, with an
accepted proof), the `finalPrice` carried by `DecryptionCompleted`
equals `sum(s1..sn) / n` under integer-division semantics. -/
theorem C3_aggregation (sigOk : SigOk) (s0 s1 s2 s3 s4 : State)
    (subs : List (Nat × Nat × Nat)) (cOwn cReq t caller ct pf fp : Nat)
    (hopen : s0.currentBatch.isOpen = true)
    (hps0 : s0.currentBatch.priceSum = 0)
    (hcnt0 : s0.currentBatch.count = 0)
    (hne : subs ≠ [])
    (hsubs : submitAll s0 subs = .ok s1)
    (hclose : closeBatch s1 cOwn = .ok s2)
    (hreq : requestPriceDecryption s2 cReq t = .ok s3)
    (hct : ct = FHE.eval (avgCiphertext s2.currentBatch))
    (hcb : myCallback sigOk s3 caller s2.oracleNextId ct pf = .ok (s4, fp)) :
    fp = (subs.map fun x => x.2.1).sum / subs.length := by
  obtain ⟨-, -, hps1, hcnt1⟩ := submitAll_ok hsubs
  obtain ⟨-, -, -, hs2⟩ := closeBatch_ok hclose
  obtain ⟨-, -, -, -, -, -, hfp, -⟩ := myCallback_ok hcb
  have hps2 : s2.currentBatch.priceSum = (subs.map fun x => x.2.1).sum := by
    rw [hs2]
    show s1.currentBatch.priceSum = _
    rw [hps1, hps0]
    omega
  have hcnt2 : s2.currentBatch.count = subs.length := by
    rw [hs2]
    show s1.currentBatch.count = _
    rw [hcnt1, hcnt0]
    omega
  rw [hfp, hct]
  show FHE.eval (.div (.enc s2.currentBatch.priceSum) (.enc s2.currentBatch.count)) = _
  rw [show FHE.eval (.div (.enc s2.currentBatch.priceSum) (.enc s2.currentBatch.count)) =
    s2.currentBatch.priceSum / s2.currentBatch.count from rfl, hps2, hcnt2]

/-- Claim C3, witness: scenario B — providers 1 and 2 submit 100 and
200 into open batch 1; after close, request and honest callback the
final price is 150 = (100 + 200) / 2. -/
theorem C3_aggregation_witness :
    submitAll exA3 subsB = .ok exC4 ∧
    myCallback oracleSigAlways exC6 9 0 150 0 = .ok (exC7, 150) ∧
    (150 : Nat) = (subsB.map fun x => x.2.1).sum / subsB.length :=
  ⟨rfl, rfl,
    C3_aggregation oracleSigAlways exA3 exC4 exC5 exC6 exC7 subsB 0 3 100 9 150 0 150
      rfl rfl rfl (by decide) rfl rfl rfl rfl rfl⟩

/-- Claim C4, counterexample: the code has no distinct not-found
condition.  For a request id that was never created (here id 5; only
id 0 exists) the stored context is the zero default and the callback
falls through to `InvalidBatchState` — the very error of the
batch-state check (also raised, e.g., after a reopen for the real
request id 0) — rather than failing with a dedicated not-found error
before the other checks. -/
theorem C4_counterexample :
    exA6.decryptionContexts 5 = defaultContext ∧
    myCallback oracleSigAlways exA6 4 5 0 0 = .error .InvalidBatchState ∧
    myCallback oracleSigAlways exA7 9 0 0 0 = .error .InvalidBatchState :=
  ⟨rfl, rfl, rfl⟩

/-- Claim C4, amended: for every request id for which no context was
ever created, `myCallback` fails — but with `InvalidBatchState`, not
with a distinct not-found condition: the zero-valued default context
cannot match any decryptable batch state (its batch id 0 is never a
closed batch with submissions), and the replay check is evaluated (and
passed) before this failure. -/
theorem C4_missing_context (sigOk sigCb : SigOk) (s : State) (caller rid ct pf : Nat)
    (hreach : Reachable sigOk s) (hrid : s.oracleNextId ≤ rid) :
    myCallback sigCb s caller rid ct pf = .error .InvalidBatchState := by
  have hInv := inv_reachable hreach
  have hdef := hInv.2 rid hrid
  have hproc : (s.decryptionContexts rid).processed = false := by rw [hdef]; rfl
  by_cases hid : s.currentBatch.id = 0
  · have hcnt := (hInv.1 hid).2
    simp [myCallback, hproc, hcnt]
  · have hne : s.currentBatch.id ≠ (s.decryptionContexts rid).batchId := by
      rw [hdef]; exact hid
    simp [myCallback, hproc, hne]

/-- Claim C4, witness: the amended theorem applied to the reachable
state `exA6` and the never-created request id 7. -/
theorem C4_missing_context_witness :
    myCallback oracleSigAlways exA6 4 7 0 0 = .error .InvalidBatchState :=
  C4_missing_context oracleSigAlways oracleSigAlways exA6 4 7 0 0 reach_exA6 (by decide)

/-- Claim C5, counterexample: provider 1 faces both a closed batch and
an active cooldown (time 110, last submission 100, cooldown 60); the
call fails with `CooldownActive`, not `BatchClosedOrNonExistent` as the
claim states, because the cooldown modifier runs before the function
body's batch-state check. -/
theorem C5_counterexample :
    exA5.currentBatch.isOpen = false ∧
    110 < exA5.lastSubmissionTime 1 + exA5.cooldownSeconds ∧
    submitEncryptedPrice exA5 1 (.enc 50) 110 = .error .CooldownActive ∧
    Err.CooldownActive ≠ Err.BatchClosedOrNonExistent :=
  ⟨rfl, by decide, rfl, by decide⟩

/-- Claim C5, amended: the failure conditions of `submitEncryptedPrice`
are evaluated in the priority order role → pause → cooldown →
batch-state (the three modifiers run before the function body): a
non-provider always gets `NotProvider`, and a caller facing both a
closed batch and an active cooldown gets `CooldownActive`. -/
theorem C5_check_order (s : State) (c t : Nat) (p : Euint32) :
    (s.isProvider c = false → submitEncryptedPrice s c p t = .error .NotProvider) ∧
    (s.isProvider c = true → s.paused = true →
      submitEncryptedPrice s c p t = .error .PausedError) ∧
    (s.isProvider c = true → s.paused = false →
      t < s.lastSubmissionTime c + s.cooldownSeconds →
      submitEncryptedPrice s c p t = .error .CooldownActive) ∧
    (s.isProvider c = true → s.paused = false →
      s.lastSubmissionTime c + s.cooldownSeconds ≤ t →
      s.currentBatch.isOpen = false →
      submitEncryptedPrice s c p t = .error .BatchClosedOrNonExistent) := by
  refine ⟨fun h1 => ?_, fun h1 h2 => ?_, fun h1 h2 h3 => ?_, fun h1 h2 h3 h4 => ?_⟩
  · simp [submitEncryptedPrice, h1]
  · simp [submitEncryptedPrice, h1, h2]
  · simp [submitEncryptedPrice, h1, h2, h3]
  · simp [submitEncryptedPrice, h1, h2, Nat.not_lt.2 h3, h4]

/-- Claim C5, witness: all four error priorities exercised on concrete
states via the amended theorem. -/
theorem C5_check_order_witness :
    submitEncryptedPrice exA5 5 (.enc 1) 500 = .error .NotProvider ∧
    submitEncryptedPrice exP6 1 (.enc 1) 500 = .error .PausedError ∧
    submitEncryptedPrice exA5 1 (.enc 1) 110 = .error .CooldownActive ∧
    submitEncryptedPrice exA5 1 (.enc 1) 500 = .error .BatchClosedOrNonExistent :=
  ⟨(C5_check_order exA5 5 500 (.enc 1)).1 rfl,
   (C5_check_order exP6 1 500 (.enc 1)).2.1 rfl rfl,
   (C5_check_order exA5 1 110 (.enc 1)).2.2.1 rfl rfl (by decide),
   (C5_check_order exA5 1 500 (.enc 1)).2.2.2 rfl rfl (by decide) rfl⟩

/-- Claim C6, counterexample: `myCallback` has no caller restriction.
Two distinct callers (7 and 8) both successfully finalize the same
request with the same effect; at most one of them can be the external
oracle, so a caller other than the oracle succeeded. -/
theorem C6_counterexample :
    (7 : Nat) ≠ 8 ∧
    myCallback oracleSigAlways exA6 7 0 100 0 = .ok (exB7, 100) ∧
    myCallback oracleSigAlways exA6 8 0 100 0 = .ok (exB7, 100) :=
  ⟨by decide, rfl, rfl⟩

/-- Claim C6, amended: the callback entry point enforces no caller
identity at all — its outcome is completely independent of `msg.sender`
(the source never reads it); authentication rests solely on the replay,
batch-state, commitment and proof checks. -/
theorem C6_callback_caller_independent (sigOk : SigOk) (s : State) (c1 c2 rid ct pf : Nat) :
    myCallback sigOk s c1 rid ct pf = myCallback sigOk s c2 rid ct pf := rfl

/-- Claim C7, counterexample: while paused, `myCallback` still succeeds
and sets the `processed` flag of a `DecryptionContext` (it has no
`whenNotPaused` modifier), and `transferOwnership` also succeeds; so not
every state-mutating operation fails with `PausedError` while paused. -/
theorem C7_counterexample :
    exP6.paused = true ∧
    myCallback oracleSigAlways exP6 9 0 100 0 = .ok (exP7, 100) ∧
    (exA6.decryptionContexts 0).processed = false ∧
    (exP7.decryptionContexts 0).processed = true ∧
    transferOwnership exP6 0 5 = .ok exT7 :=
  ⟨rfl, rfl, rfl, rfl, rfl⟩

/-- Claim C7, amended: while paused, the batch-lifecycle and protocol
operations `openBatch`, `closeBatch`, `submitEncryptedPrice` and
`requestPriceDecryption` fail with `PausedError` (after their role
checks), so the Batch record and both cooldown-timer maps cannot change
while paused; but the owner-only admin operations and `myCallback` are
not pause-gated — in particular `myCallback` can still finalize and set
a `DecryptionContext`'s `processed` flag while paused. -/
theorem C7_pause_gating (sigOk : SigOk) (s s' : State) (c t : Nat) (p : Euint32) (op : Op)
    (hp : s.paused = true) :
    openBatch s s.owner = .error .PausedError ∧
    closeBatch s s.owner = .error .PausedError ∧
    (s.isProvider c = true → submitEncryptedPrice s c p t = .error .PausedError) ∧
    requestPriceDecryption s c t = .error .PausedError ∧
    (applyOp sigOk s op = .ok s' →
      s'.currentBatch = s.currentBatch ∧
      s'.lastSubmissionTime = s.lastSubmissionTime ∧
      s'.lastDecryptionRequestTime = s.lastDecryptionRequestTime) := by
  refine ⟨by simp [openBatch, hp], by simp [closeBatch, hp],
    fun hc => by simp [submitEncryptedPrice, hc, hp],
    by simp [requestPriceDecryption, hp], fun hok => ?_⟩
  cases op with
  | transferOwnership c2 n =>
    obtain ⟨-, rfl⟩ := transferOwnership_ok hok; exact ⟨rfl, rfl, rfl⟩
  | addProvider c2 p2 =>
    obtain ⟨-, rfl⟩ := addProvider_ok hok; exact ⟨rfl, rfl, rfl⟩
  | removeProvider c2 p2 =>
    obtain ⟨-, rfl⟩ := removeProvider_ok hok; exact ⟨rfl, rfl, rfl⟩
  | setCooldownSeconds c2 n =>
    obtain ⟨-, -, rfl⟩ := setCooldownSeconds_ok hok; exact ⟨rfl, rfl, rfl⟩
  | pause c2 =>
    obtain ⟨-, rfl⟩ := pause_ok hok; exact ⟨rfl, rfl, rfl⟩
  | unpause c2 =>
    obtain ⟨-, rfl⟩ := unpause_ok hok; exact ⟨rfl, rfl, rfl⟩
  | openBatch c2 =>
    obtain ⟨-, hpf, -, -⟩ := openBatch_ok hok; simp [hp] at hpf
  | closeBatch c2 =>
    obtain ⟨-, hpf, -, -⟩ := closeBatch_ok hok; simp [hp] at hpf
  | submitEncryptedPrice c2 p2 t2 =>
    obtain ⟨-, hpf, -, -, -, -⟩ := submitEncryptedPrice_ok hok; simp [hp] at hpf
  | requestPriceDecryption c2 t2 =>
    obtain ⟨hpf, -, -, -, -⟩ := requestPriceDecryption_ok hok; simp [hp] at hpf
  | myCallback c2 r ct2 pf2 =>
    obtain ⟨fp, hcb⟩ := applyOp_myCallback_ok hok
    obtain ⟨-, -, -, -, -, -, -, rfl⟩ := myCallback_ok hcb
    exact ⟨rfl, rfl, rfl⟩

/-- Claim C7, witness: the amended theorem applied to the paused state
`exP6` with the successful paused `transferOwnership` transaction. -/
theorem C7_pause_gating_witness :
    openBatch exP6 0 = .error .PausedError ∧
    closeBatch exP6 0 = .error .PausedError ∧
    submitEncryptedPrice exP6 1 (.enc 1) 500 = .error .PausedError ∧
    requestPriceDecryption exP6 1 500 = .error .PausedError ∧
    exT7.currentBatch = exP6.currentBatch := by
  have inst := C7_pause_gating oracleSigAlways exP6 exT7 1 500 (.enc 1)
    (Op.transferOwnership 0 5) rfl
  exact ⟨inst.1, inst.2.1, inst.2.2.1 rfl, inst.2.2.2.1, (inst.2.2.2.2 rfl).1⟩

/-- Claim C8: cooldown enforcement for both gated kinds of action.  A
second action of the same kind from the same address strictly less than
`cooldownSeconds` after a successful one fails with `CooldownActive`; an
action at or after `lastActionTime + cooldownSeconds` succeeds when all
other preconditions hold; each success updates the corresponding
per-address timer to the current time. -/
theorem C8_cooldown (s s1 : State) (c t0 t1 t : Nat) (p p2 : Euint32) :
    (submitEncryptedPrice s c p t0 = .ok s1 → t1 < t0 + s1.cooldownSeconds →
      submitEncryptedPrice s1 c p2 t1 = .error .CooldownActive) ∧
    (submitEncryptedPrice s c p t0 = .ok s1 → s1.lastSubmissionTime c = t0) ∧
    (s.isProvider c = true → s.paused = false →
      s.lastSubmissionTime c + s.cooldownSeconds ≤ t →
      s.currentBatch.isOpen = true → FHE.isInitialized p = true →
      ∃ s2, submitEncryptedPrice s c p t = .ok s2 ∧ s2.lastSubmissionTime c = t) ∧
    (requestPriceDecryption s c t0 = .ok s1 → t1 < t0 + s1.cooldownSeconds →
      requestPriceDecryption s1 c t1 = .error .CooldownActive) ∧
    (requestPriceDecryption s c t0 = .ok s1 → s1.lastDecryptionRequestTime c = t0) ∧
    (s.paused = false → s.lastDecryptionRequestTime c + s.cooldownSeconds ≤ t →
      s.currentBatch.isOpen = false → s.currentBatch.count ≠ 0 →
      ∃ s2, requestPriceDecryption s c t = .ok s2 ∧ s2.lastDecryptionRequestTime c = t) := by
  refine ⟨fun hok ht1 => ?_, fun hok => ?_, fun h1 h2 h3 h4 h5 => ?_,
    fun hok ht1 => ?_, fun hok => ?_, fun h1 h2 h3 h4 => ?_⟩
  · obtain ⟨hpr, hpa, -, -, -, hs1⟩ := submitEncryptedPrice_ok hok
    have hprov1 : s1.isProvider c = true := by rw [hs1]; exact hpr
    have hpaused1 : s1.paused = false := by rw [hs1]; exact hpa
    have hlast1 : s1.lastSubmissionTime c = t0 := by rw [hs1]; simp
    have hcond : t1 < s1.lastSubmissionTime c + s1.cooldownSeconds := by
      rw [hlast1]; exact ht1
    simp [submitEncryptedPrice, hprov1, hpaused1, hcond]
  · obtain ⟨-, -, -, -, -, hs1⟩ := submitEncryptedPrice_ok hok
    rw [hs1]; simp
  · refine ⟨{ s with
      lastSubmissionTime := fun a => if a = c then t else s.lastSubmissionTime a
      currentBatch := { s.currentBatch with
        priceSum := FHE.toUint32 (FHE.add (FHE.asEuint32 s.currentBatch.priceSum) p)
        count := s.currentBatch.count + 1 } }, ?_, ?_⟩
    · simp [submitEncryptedPrice, h1, h2, Nat.not_lt.2 h3, h4, h5]
    · simp
  · obtain ⟨hpa, -, -, -, hs1⟩ := requestPriceDecryption_ok hok
    have hpaused1 : s1.paused = false := by rw [hs1]; exact hpa
    have hlast1 : s1.lastDecryptionRequestTime c = t0 := by rw [hs1]; simp
    have hcond : t1 < s1.lastDecryptionRequestTime c + s1.cooldownSeconds := by
      rw [hlast1]; exact ht1
    simp [requestPriceDecryption, hpaused1, hcond]
  · obtain ⟨-, -, -, -, hs1⟩ := requestPriceDecryption_ok hok
    rw [hs1]; simp
  · refine ⟨{ s with
      lastDecryptionRequestTime := fun a => if a = c then t else s.lastDecryptionRequestTime a
      decryptionContexts := fun r => if r = s.oracleNextId then
        { batchId := s.currentBatch.id
          stateHash := hashCiphertexts [FHE.toBytes32 (avgCiphertext s.currentBatch)] s.self
          processed := false }
        else s.decryptionContexts r
      oracleNextId := s.oracleNextId + 1 }, ?_, ?_⟩
    · simp [requestPriceDecryption, h1, Nat.not_lt.2 h2, h3, h4, FHE.isInitialized,
        FHE.asEuint32]
    · simp

/-- Claim C8, witness: the second submission 10 seconds after a
successful one fails `CooldownActive` and the timers were set to the
successful actions' times; same for decryption requests. -/
theorem C8_cooldown_witness :
    submitEncryptedPrice exA4 1 (.enc 50) 110 = .error .CooldownActive ∧
    exA4.lastSubmissionTime 1 = 100 ∧
    requestPriceDecryption exA6 2 130 = .error .CooldownActive ∧
    exA6.lastDecryptionRequestTime 2 = 100 :=
  ⟨(C8_cooldown exA3 exA4 1 100 110 0 (.enc 100) (.enc 50)).1 rfl (by decide),
   (C8_cooldown exA3 exA4 1 100 110 0 (.enc 100) (.enc 50)).2.1 rfl,
   (C8_cooldown exA5 exA6 2 100 130 0 (.enc 100) (.enc 50)).2.2.2.1 rfl (by decide),
   (C8_cooldown exA5 exA6 2 100 130 0 (.enc 100) (.enc 50)).2.2.2.2.1 rfl⟩

/-- Claim C9: failure atomicity.  Whenever any operation fails with any
error, the transaction leaves the observable state exactly as it was:
the EVM rolls back a reverted call, which the embedding expresses by
`stepTx` returning the pre-state on `error`. -/
theorem C9_atomic_revert (sigOk : SigOk) (s : State) (op : Op) (e : Err)
    (h : applyOp sigOk s op = .error e) : stepTx sigOk s op = s := by
  unfold stepTx
  rw [h]

/-- Claim C9, witness: a failing `openBatch` by a non-owner leaves the
deployment state unchanged. -/
theorem C9_atomic_revert_witness :
    applyOp oracleSigAlways exA0 (Op.openBatch 5) = .error .NotOwner ∧
    stepTx oracleSigAlways exA0 (Op.openBatch 5) = exA0 :=
  ⟨rfl, C9_atomic_revert oracleSigAlways exA0 (Op.openBatch 5) .NotOwner rfl⟩

/-- Claim C10, counterexample: in a fresh deployment (provider 1
registered, batch opened, nothing else), the very first cooldown-gated
action of fresh address 1 at time 10 fails the cooldown check with
`CooldownActive` — because `block.timestamp < 0 + 60` — refuting that
the first gated action of a fresh address always passes the check. -/
theorem C10_counterexample :
    exD2.lastSubmissionTime 1 = 0 ∧
    exD2.isProvider 1 = true ∧
    exD2.currentBatch.isOpen = true ∧
    exD2.paused = false ∧
    submitEncryptedPrice exD2 1 (.enc 5) 10 = .error .CooldownActive :=
  ⟨rfl, rfl, rfl, rfl, rfl⟩

/-- Claim C10, amended: after construction the owner is the deployer,
`cooldownSeconds` is 60 (a default the spec never states), `paused` is
false, no address is a provider, the batch record is
`{id: 0, open: false, priceSum: 0, count: 0}`, and both per-address
timers default to 0 — so the first cooldown-gated action of a fresh
address passes the cooldown check exactly when its timestamp is at
least `cooldownSeconds` (60); at earlier timestamps it fails
`CooldownActive`. -/
theorem C10_initial_state (d self p v t : Nat) (sp so : State)
    (hp : addProvider (initialState d self) d p = .ok sp)
    (ho : openBatch sp d = .ok so) :
    (initialState d self).owner = d ∧
    (initialState d self).cooldownSeconds = 60 ∧
    (initialState d self).paused = false ∧
    (∀ a, (initialState d self).isProvider a = false) ∧
    (initialState d self).currentBatch =
      { id := 0, isOpen := false, priceSum := 0, count := 0 } ∧
    (∀ a, (initialState d self).lastSubmissionTime a = 0 ∧
      (initialState d self).lastDecryptionRequestTime a = 0) ∧
    (t < 60 → submitEncryptedPrice so p (.enc v) t = .error .CooldownActive) ∧
    (60 ≤ t → ∃ s2, submitEncryptedPrice so p (.enc v) t = .ok s2) := by
  obtain ⟨-, hsp⟩ := addProvider_ok hp
  obtain ⟨-, -, -, hso⟩ := openBatch_ok ho
  have hprov : so.isProvider p = true := by rw [hso, hsp]; simp
  have hpaused : so.paused = false := by rw [hso, hsp]; rfl
  have hlast : so.lastSubmissionTime p = 0 := by rw [hso, hsp]; rfl
  have hcd : so.cooldownSeconds = 60 := by rw [hso, hsp]; rfl
  have hopen : so.currentBatch.isOpen = true := by rw [hso]
  refine ⟨rfl, rfl, rfl, fun a => rfl, rfl, fun a => ⟨rfl, rfl⟩, fun hlt => ?_, fun hge => ?_⟩
  · have hcond : t < so.lastSubmissionTime p + so.cooldownSeconds := by
      rw [hlast, hcd]; omega
    simp [submitEncryptedPrice, hprov, hpaused, hcond]
  · have hcond : ¬ (t < so.lastSubmissionTime p + so.cooldownSeconds) := by
      rw [hlast, hcd]; omega
    refine ⟨{ so with
      lastSubmissionTime := fun a => if a = p then t else so.lastSubmissionTime a
      currentBatch := { so.currentBatch with
        priceSum := FHE.toUint32 (FHE.add (FHE.asEuint32 so.currentBatch.priceSum) (.enc v))
        count := so.currentBatch.count + 1 } }, ?_⟩
    simp [submitEncryptedPrice, hprov, hpaused, hcond, hopen, FHE.isInitialized]

/-- Claim C10, witness: the amended theorem applied to deployer 0,
provider 1 and timestamp 10 < 60. -/
theorem C10_initial_state_witness :
    (initialState 0 0).owner = 0 ∧
    (initialState 0 0).cooldownSeconds = 60 ∧
    submitEncryptedPrice exD2 1 (.enc 5) 10 = .error .CooldownActive := by
  have inst := C10_initial_state 0 0 1 5 10 exA1 exD2 rfl rfl
  exact ⟨inst.1, inst.2.1, inst.2.2.2.2.2.2.1 (by decide)⟩

end DEX
